import Mathlib

/-!
Verification of the omnos utility library: a shallow embedding of the
functions `memo`, `merge`, `shuffle` and `capitalize` from the source,
together with theorems settling the specification's claims about them.
-/

namespace Omnos

/-! ## JavaScript value model (for `merge`) -/

/-- JavaScript values, as far as `merge` distinguishes them: primitives,
`null`, `undefined`, arrays and plain objects (association lists of
string keys to values, in insertion order). -/
inductive JsVal where
  | undef : JsVal
  | null : JsVal
  | bool (b : Bool) : JsVal
  | num (n : Int) : JsVal
  | str (s : String) : JsVal
  | arr (elems : List JsVal) : JsVal
  | obj (fields : List (String × JsVal)) : JsVal

/-- The JavaScript `typeof` operator on our value model.  Note that
`typeof null`, `typeof` of an array and `typeof` of a plain object are
all the string "object". -/
def jsTypeof : JsVal → String
  | JsVal.undef => "undefined"
  | JsVal.null => "object"
  | JsVal.bool _ => "boolean"
  | JsVal.num _ => "number"
  | JsVal.str _ => "string"
  | JsVal.arr _ => "object"
  | JsVal.obj _ => "object"

/-- JavaScript `Array.isArray`. -/
def isArray : JsVal → Bool
  | JsVal.arr _ => true
  | _ => false

/-- Whether a value is the JavaScript `null`. -/
def isNull : JsVal → Bool
  | JsVal.null => true
  | _ => false

/-- JavaScript `acc.concat(v)`: appends the elements of `v` when `v` is
an array, and `v` itself otherwise. -/
def jsConcat (acc : List JsVal) (v : JsVal) : List JsVal :=
  match v with
  | JsVal.arr xs => acc ++ xs
  | v => acc ++ [v]

/-- The own enumerable string-keyed properties of a value, in order, as
`Object.assign` reads them: an object's fields; an array's elements
under their decimal index keys; nothing for the other values. -/
def fieldsOf : JsVal → List (String × JsVal)
  | JsVal.obj fs => fs
  | JsVal.arr xs => ((List.range xs.length).zip xs).map (fun p => (toString p.1, p.2))
  | _ => []

/-- Setting one property on an object: an existing key keeps its
position and gets the new value; a new key is appended. -/
def setField : List (String × JsVal) → String → JsVal → List (String × JsVal)
  | [], k, v => [(k, v)]
  | (k0, v0) :: rest, k, v =>
      if k0 = k then (k, v) :: rest else (k0, v0) :: setField rest k v

/-- Copying all of a source's fields onto a target object, in order, as
one `Object.assign` step does. -/
def assignFields (acc : List (String × JsVal)) (fs : List (String × JsVal)) :
    List (String × JsVal) :=
  fs.foldl (fun a p => setField a p.1 p.2) acc

/-- The per-item test of `merge`'s `allSameType` check, taken verbatim
from the source: an item passes when it is an array and the first type
was "array", or when its `typeof` is "object", it is not `null`, and
the first type was "object". -/
def mergeTypeCheck (ft : String) (item : JsVal) : Bool :=
  (isArray item && ft == "array") ||
    (jsTypeof item == "object" && !(isNull item) && ft == "object")

/-- The `merge` function from the source: determines the first input's
type ("array" when `Array.isArray`, "object" when `typeof` is "object"
and not `null`, otherwise an error), checks every input against that
type with `mergeTypeCheck`, then either concatenates (array case,
`reduce` with `concat` from `[]`) or overlays fields
(`Object.assign({}, ...objects)`). -/
def merge (objects : List JsVal) : Except String JsVal :=
  let first := objects.headD JsVal.undef
  let firstType : Option String :=
    if isArray first then some "array"
    else if jsTypeof first == "object" && !(isNull first) then some "object"
    else none
  match firstType with
  | none => Except.error "Cannot merge non-array, non-object values."
  | some ft =>
    if objects.all (mergeTypeCheck ft) then
      if ft == "array" then
        Except.ok (JsVal.arr (objects.foldl jsConcat []))
      else
        Except.ok (JsVal.obj (objects.foldl (fun acc o => assignFields acc (fieldsOf o)) []))
    else Except.error "Cannot merge mixed types: arrays and objects."

/-- The field list `merge` builds in its object branch, starting from
the empty object and assigning each input's fields in order. -/
def mergedFields (fss : List (List (String × JsVal))) : List (String × JsVal) :=
  fss.foldl (fun acc fs => assignFields acc fs) []

/-- Property lookup on an object: the value at the first occurrence of
the key. -/
def lookupFields : List (String × JsVal) → String → Option JsVal
  | [], _ => none
  | (k0, v0) :: rest, k => if k0 = k then some v0 else lookupFields rest k

/-- The value the last occurrence of a key in a field list carries (the
one a left-to-right sequence of property writes leaves in place). -/
def lookupLast (fs : List (String × JsVal)) (k : String) : Option JsVal :=
  lookupFields fs.reverse k

/-- Modelled from the spec: the value the spec's overlay description
assigns to a key — each input's fields are laid over the previous ones
in argument order, so the key's value comes from the last input that
defines it. -/
def overlayLookup (fss : List (List (String × JsVal))) (k : String) : Option JsVal :=
  fss.foldl
    (fun acc fs =>
      match lookupLast fs k with
      | some v => some v
      | none => acc)
    none

/-! ## `capitalize` -/

/-- The `capitalize` function from the source:
`str.charAt(0).toUpperCase() + str.slice(1)`.  `charAt(0)` of the empty
string is the empty string, so the empty string maps to itself;
otherwise the first character is upper-cased (`Char.toUpper` standing
in for the single-character `toUpperCase`) and the rest is kept. -/
def capitalize (str : String) : String :=
  match str.data with
  | [] => ""
  | c :: rest => String.mk (c.toUpper :: rest)

/-! ## `shuffle` -/

/-- Swapping the entries at two positions of a list; positions out of
range leave the list unchanged (the source never produces such a
position). -/
def listSwap (l : List α) (i j : Nat) : List α :=
  match l.get? i, l.get? j with
  | some x, some y => (l.set i y).set j x
  | _, _ => l

/-- The loop of `shuffle`: with the counter at `i + 1`, swap position
`i + 1` with position `rand (i + 1)` (the source draws
`Math.floor(Math.random() * (i + 1 + 1))`, a number in `[0, i + 1]`)
and continue with the counter decremented; stop at 0. -/
def shuffleFrom (rand : Nat → Nat) : List α → Nat → List α
  | l, 0 => l
  | l, Nat.succ k => shuffleFrom rand (listSwap l (Nat.succ k) (rand (Nat.succ k))) k

/-- The `shuffle` function from the source, the Fisher-Yates shuffle:
iterate the swap loop from index `length - 1` down to 1, with `rand`
standing for the successive draws of the pseudo-random source. -/
def shuffle (rand : Nat → Nat) (array : List α) : List α :=
  shuffleFrom rand array (array.length - 1)

/-! ## `memo` -/

/-- A cache entry of the memoizer: either the promise of a computation
still in flight (carrying its eventual outcome, which is determined
because the underlying function is modelled as a pure fallible
function), or a resolved value. -/
inductive Entry (ε β : Type) where
  | pending (outcome : Except ε β) : Entry ε β
  | resolved (value : β) : Entry ε β

/-- The cache of the memoizer: a map from serialized-argument keys to
entries, modelled as an association list with at most one binding per
key. -/
def Cache (ε β : Type) := List (String × Entry ε β)

/-- Map lookup. -/
def cacheGet : List (String × α) → String → Option α
  | [], _ => none
  | (k0, v0) :: rest, k => if k0 = k then some v0 else cacheGet rest k

/-- Map insertion or update: an existing key is updated in place, a new
key is appended. -/
def cacheSet : List (String × α) → String → α → List (String × α)
  | [], k, v => [(k, v)]
  | (k0, v0) :: rest, k, v =>
      if k0 = k then (k, v) :: rest else (k0, v0) :: cacheSet rest k v

/-- Map deletion. -/
def cacheDel : List (String × α) → String → List (String × α)
  | [], _ => []
  | (k0, v0) :: rest, k => if k0 = k then rest else (k0, v0) :: cacheDel rest k

/-- What the synchronous prefix of one wrapped call does, before any
await: the serialization threw; or the key was found in the cache and
the caller will receive the entry's (eventual) outcome; or the
underlying function was started for the key. -/
inductive BeginResult (ε β : Type) where
  | serError : BeginResult ε β
  | hit (outcome : Except ε β) : BeginResult ε β
  | started (outcome : Except ε β) (key : String) : BeginResult ε β

/-- The outcome one caller of the wrapped function observes: a
serialization failure, the underlying function's failure, or a value. -/
inductive CallOutcome (ε β : Type) where
  | serError : CallOutcome ε β
  | fnError (e : ε) : CallOutcome ε β
  | value (b : β) : CallOutcome ε β

/-- The synchronous prefix of one call of the function `memo fn`
returns, from the source: compute `key = JSON.stringify(args)`
(`serialize`, which can fail on non-serializable arguments); if the
cache has the key, return the stored entry; otherwise invoke
`fn(...args)` and store the resulting promise under the key.  The
third component counts invocations of the underlying function. -/
def memoBegin (serialize : α → Option String) (fn : α → Except ε β)
    (cache : List (String × Entry ε β)) (args : α) :
    BeginResult ε β × List (String × Entry ε β) × Nat :=
  match serialize args with
  | none => (BeginResult.serError, cache, 0)
  | some key =>
    match cacheGet cache key with
    | some (Entry.resolved b) => (BeginResult.hit (Except.ok b), cache, 0)
    | some (Entry.pending o) => (BeginResult.hit o, cache, 0)
    | none =>
      let o := fn args
      (BeginResult.started o key, cacheSet cache key (Entry.pending o), 1)

/-- What the starting caller's `await` does to the cache when the
underlying computation settles, from the source: on success the key is
rebound to the resolved value; on failure the key is deleted. -/
def memoSettle (cache : List (String × Entry ε β)) (key : String)
    (o : Except ε β) : List (String × Entry ε β) :=
  match o with
  | Except.ok b => cacheSet cache key (Entry.resolved b)
  | Except.error _ => cacheDel cache key

/-- One complete, uninterleaved call of the wrapped function: run the
synchronous prefix and, when this call started the computation, settle
it.  Returns the caller's outcome, the cache afterwards, and how many
times the underlying function was invoked. -/
def memoCall (serialize : α → Option String) (fn : α → Except ε β)
    (cache : List (String × Entry ε β)) (args : α) :
    CallOutcome ε β × List (String × Entry ε β) × Nat :=
  match memoBegin serialize fn cache args with
  | (BeginResult.serError, c, n) => (CallOutcome.serError, c, n)
  | (BeginResult.hit (Except.ok b), c, n) => (CallOutcome.value b, c, n)
  | (BeginResult.hit (Except.error e), c, n) => (CallOutcome.fnError e, c, n)
  | (BeginResult.started (Except.ok b) key, c, n) =>
      (CallOutcome.value b, memoSettle c key (Except.ok b), n)
  | (BeginResult.started (Except.error e) key, c, n) =>
      (CallOutcome.fnError e, memoSettle c key (Except.error e), n)

/-- A concrete serializer on naturals, used by witnesses. -/
def serNat (n : Nat) : Option String := some (toString n)

/-- A concrete underlying function that always fails. -/
def failFn (_ : Nat) : Except Unit Nat := Except.error ()

/-- A concrete underlying function that succeeds with the successor. -/
def succFn (n : Nat) : Except Unit Nat := Except.ok (n + 1)

/-- A concrete serializer that never succeeds, standing for arguments
`JSON.stringify` rejects. -/
def serFail (_ : Nat) : Option String := none

/-- A concrete serializer that collides on all inputs, standing for
distinct argument lists with one JSON image. -/
def serCollide (_ : Option Nat) : Option String := some "[null]"

/-- A concrete underlying function distinguishing the colliding
arguments. -/
def getDFn (x : Option Nat) : Except Unit Nat := Except.ok (x.getD 0)

/-! ## Cache lemmas -/

theorem cacheGet_cacheSet_self (c : List (String × α)) (k : String) (v : α) :
    cacheGet (cacheSet c k v) k = some v := by
  induction c with
  | nil => simp [cacheSet, cacheGet]
  | cons p rest ih =>
      by_cases h : p.1 = k
      · simp [cacheSet, cacheGet, h]
      · simp [cacheSet, cacheGet, h, ih]

theorem cacheDel_cacheSet_of_get_none (c : List (String × α)) (k : String)
    (v : α) (h : cacheGet c k = none) : cacheDel (cacheSet c k v) k = c := by
  induction c with
  | nil => simp [cacheSet, cacheDel]
  | cons p rest ih =>
      by_cases hk : p.1 = k
      · simp [cacheGet, hk] at h
      · simp [cacheGet, hk] at h
        simp [cacheSet, cacheDel, hk, ih h]

/-! ## Memoizer theorems -/

/-- C2 counterexample: with an underlying function that always fails,
two calls of the wrapped function with identical arguments invoke the
underlying function twice, not exactly once. -/
theorem memo_twice_failing_fn_reinvokes :
    (memoCall serNat failFn [] 0).2.2 = 1 ∧
      (memoCall serNat failFn (memoCall serNat failFn [] 0).2.1 0).2.2 = 1 := by
  constructor <;> rfl

/-- C2: when the underlying invocation succeeds, a first call of the
memoized function invokes the underlying function once, caches the
resolved value, and a second call with identical arguments returns the
same value from the cache with no further invocation. -/
theorem memo_second_call_cached {α ε β : Type} (ser : α → Option String)
    (fn : α → Except ε β) (args : α) (k : String) (b : β)
    (hs : ser args = some k) (hf : fn args = Except.ok b) :
    memoCall ser fn [] args = (CallOutcome.value b, [(k, Entry.resolved b)], 1) ∧
      memoCall ser fn [(k, Entry.resolved b)] args
        = (CallOutcome.value b, [(k, Entry.resolved b)], 0) := by
  simp [memoCall, memoBegin, memoSettle, cacheGet, cacheSet, hs, hf]

/-- C2 witness at a concrete serializer, function and argument. -/
theorem memo_second_call_cached_witness :
    memoCall serNat succFn [] 0 = (CallOutcome.value 1, [("0", Entry.resolved 1)], 1) ∧
      memoCall serNat succFn [("0", Entry.resolved 1)] 0
        = (CallOutcome.value 1, [("0", Entry.resolved 1)], 0) :=
  memo_second_call_cached serNat succFn 0 "0" 1 rfl rfl

/-- C3: when the underlying invocation fails, the failure is propagated
to the caller, the cache is left exactly as before the call (the key is
removed, never cached), and the immediately following call with the
same arguments — and hence, the state being unchanged, every subsequent
one — invokes the underlying function again. -/
theorem memo_failure_not_cached {α ε β : Type} (ser : α → Option String)
    (fn : α → Except ε β) (cache : List (String × Entry ε β)) (args : α)
    (k : String) (e : ε)
    (hs : ser args = some k) (hf : fn args = Except.error e)
    (hc : cacheGet cache k = none) :
    memoCall ser fn cache args = (CallOutcome.fnError e, cache, 1) ∧
      memoCall ser fn (memoCall ser fn cache args).2.1 args
        = (CallOutcome.fnError e, cache, 1) := by
  have h1 : memoCall ser fn cache args = (CallOutcome.fnError e, cache, 1) := by
    simp [memoCall, memoBegin, memoSettle, hs, hf, hc,
      cacheDel_cacheSet_of_get_none cache k _ hc]
  refine ⟨h1, ?_⟩
  rw [h1]
  exact h1

/-- C3 witness at a concrete serializer, failing function, argument and
empty cache. -/
theorem memo_failure_not_cached_witness :
    memoCall serNat failFn [] 0 = (CallOutcome.fnError (), [], 1) ∧
      memoCall serNat failFn (memoCall serNat failFn [] 0).2.1 0
        = (CallOutcome.fnError (), [], 1) :=
  memo_failure_not_cached serNat failFn [] 0 "0" () rfl rfl rfl

/-- C4: when a second call with the same arguments arrives while the
first call's computation is in flight, the first call invoked the
underlying function once and stored the pending computation; the second
call invokes nothing and observes the same in-flight computation, so
both callers receive the one invocation's eventual outcome. -/
theorem memo_single_flight {α ε β : Type} (ser : α → Option String)
    (fn : α → Except ε β) (cache : List (String × Entry ε β)) (args : α)
    (k : String) (hs : ser args = some k) (hc : cacheGet cache k = none) :
    memoBegin ser fn cache args
      = (BeginResult.started (fn args) k,
          cacheSet cache k (Entry.pending (fn args)), 1) ∧
      memoBegin ser fn (memoBegin ser fn cache args).2.1 args
        = (BeginResult.hit (fn args),
            cacheSet cache k (Entry.pending (fn args)), 0) := by
  have h1 : memoBegin ser fn cache args
      = (BeginResult.started (fn args) k,
          cacheSet cache k (Entry.pending (fn args)), 1) := by
    simp [memoBegin, hs, hc]
  refine ⟨h1, ?_⟩
  rw [h1]
  simp [memoBegin, hs, cacheGet_cacheSet_self]

/-- C4 witness at a concrete serializer, function, argument and empty
cache. -/
theorem memo_single_flight_witness :
    memoBegin serNat succFn [] 0
      = (BeginResult.started (succFn 0) "0",
          cacheSet [] "0" (Entry.pending (succFn 0)), 1) ∧
      memoBegin serNat succFn (memoBegin serNat succFn [] 0).2.1 0
        = (BeginResult.hit (succFn 0),
            cacheSet [] "0" (Entry.pending (succFn 0)), 0) :=
  memo_single_flight serNat succFn [] 0 "0" rfl rfl

/-- C5: when the arguments cannot be serialized, the wrapped call fails
with the serialization error, the underlying function is never invoked,
and the cache is untouched. -/
theorem memo_serialization_error {α ε β : Type} (ser : α → Option String)
    (fn : α → Except ε β) (cache : List (String × Entry ε β)) (args : α)
    (hs : ser args = none) :
    memoCall ser fn cache args = (CallOutcome.serError, cache, 0) := by
  simp [memoCall, memoBegin, hs]

/-- C5 witness at a concrete non-serializable argument. -/
theorem memo_serialization_error_witness :
    memoCall serFail succFn [] 0 = (CallOutcome.serError, [], 0) :=
  memo_serialization_error serFail succFn [] 0 rfl

/-- C10: two distinct argument values with the same serialized key
share one cache entry — after a successful call with the first, a call
with the second returns the first call's cached value without invoking
the underlying function. -/
theorem memo_key_collision {α ε β : Type} (ser : α → Option String)
    (fn : α → Except ε β) (a1 a2 : α) (k : String) (b : β)
    (_hne : a1 ≠ a2) (h1 : ser a1 = some k) (h2 : ser a2 = some k)
    (hf : fn a1 = Except.ok b) :
    memoCall ser fn [] a1 = (CallOutcome.value b, [(k, Entry.resolved b)], 1) ∧
      memoCall ser fn [(k, Entry.resolved b)] a2
        = (CallOutcome.value b, [(k, Entry.resolved b)], 0) := by
  simp [memoCall, memoBegin, memoSettle, cacheGet, cacheSet, h1, h2, hf]

/-- C10 witness: `none` and `some 5` both serialize to "[null]"; the
second call returns the value computed for `none` even though the
underlying function would map `some 5` elsewhere. -/
theorem memo_key_collision_witness :
    memoCall serCollide getDFn [] none
        = (CallOutcome.value 0, [("[null]", Entry.resolved 0)], 1) ∧
      memoCall serCollide getDFn [("[null]", Entry.resolved 0)] (some 5)
        = (CallOutcome.value 0, [("[null]", Entry.resolved 0)], 0) :=
  memo_key_collision serCollide getDFn none (some 5) "[null]" 0
    (by decide) rfl rfl rfl

/-! ## Merge lemmas and theorems -/

theorem mergeTypeCheck_array (x : JsVal) : mergeTypeCheck "array" x = isArray x := by
  cases x <;> simp [mergeTypeCheck, isArray, jsTypeof, isNull]

theorem jsConcat_foldl_map (ls : List (List JsVal)) (acc : List JsVal) :
    (ls.map JsVal.arr).foldl jsConcat acc = acc ++ ls.flatten := by
  induction ls generalizing acc with
  | nil => simp
  | cons l t ih => simp [jsConcat, ih, List.append_assoc]

/-- C1 counterexample: with a mapping first and a sequence second,
`merge` does not raise the type-mismatch error — the sequence passes
the type check (its `typeof` is "object") and its indexed elements are
merged as fields. -/
theorem merge_object_then_array_not_error :
    merge [JsVal.obj [("a", JsVal.num 1)], JsVal.arr [JsVal.num 1]]
      = Except.ok (JsVal.obj [("a", JsVal.num 1), ("0", JsVal.num 1)]) := by
  rfl

/-- C1 amended: when the first input is a sequence and some input is
not a sequence, `merge` fails with the type-mismatch error; the
mapping-first direction does not raise it. -/
theorem merge_array_first_mismatch_error (objects : List JsVal)
    (h0 : isArray (objects.headD JsVal.undef) = true)
    (hx : ∃ x ∈ objects, isArray x = false) :
    merge objects = Except.error "Cannot merge mixed types: arrays and objects." := by
  rcases hx with ⟨x, hmem, hxa⟩
  have hnall : ¬ ∀ y ∈ objects, mergeTypeCheck "array" y = true := by
    intro hf
    have hy := hf x hmem
    rw [mergeTypeCheck_array, hxa] at hy
    exact Bool.false_ne_true hy
  have h0g : isArray (objects.head?.getD JsVal.undef) = true := by
    simpa [List.headD_eq_head?_getD] using h0
  simp [merge, h0g, hnall]

/-- C1 amended witness at the spec's example `merge([1], {a: 1})`. -/
theorem merge_array_first_mismatch_error_witness :
    merge [JsVal.arr [JsVal.num 1], JsVal.obj [("a", JsVal.num 1)]]
      = Except.error "Cannot merge mixed types: arrays and objects." :=
  merge_array_first_mismatch_error
    [JsVal.arr [JsVal.num 1], JsVal.obj [("a", JsVal.num 1)]] rfl
    ⟨JsVal.obj [("a", JsVal.num 1)], List.Mem.tail _ (List.Mem.head _), rfl⟩

/-- C6: merging sequences concatenates them in argument order. -/
theorem merge_arrays_concat (ls : List (List JsVal)) (h : ls ≠ []) :
    merge (ls.map JsVal.arr) = Except.ok (JsVal.arr ls.flatten) := by
  obtain ⟨l, t, rfl⟩ := List.exists_cons_of_ne_nil h
  have h1 : mergeTypeCheck "array" (JsVal.arr l) = true := by
    simp [mergeTypeCheck_array, isArray]
  have h2 : ∀ a ∈ t, mergeTypeCheck "array" (JsVal.arr a) = true := by
    intro a _
    simp [mergeTypeCheck_array, isArray]
  simp [merge, isArray, h1, h2, jsConcat_foldl_map, jsConcat]
  exact h2

/-- C6 witness at the spec's example `merge([1,2], [3,4])`. -/
theorem merge_arrays_concat_witness :
    merge [JsVal.arr [JsVal.num 1, JsVal.num 2], JsVal.arr [JsVal.num 3, JsVal.num 4]]
      = Except.ok (JsVal.arr [JsVal.num 1, JsVal.num 2, JsVal.num 3, JsVal.num 4]) := by
  have h := merge_arrays_concat
    [[JsVal.num 1, JsVal.num 2], [JsVal.num 3, JsVal.num 4]] (by simp)
  simpa using h

theorem lookupFields_setField (a : List (String × JsVal)) (kk k : String) (v : JsVal) :
    lookupFields (setField a kk v) k = if kk = k then some v else lookupFields a k := by
  induction a with
  | nil => simp [setField, lookupFields]
  | cons p rest ih =>
      obtain ⟨k0, v0⟩ := p
      by_cases h : k0 = kk
      · subst h
        by_cases hk : k0 = k <;> simp [setField, lookupFields, hk]
      · by_cases hk : k0 = k
        · subst hk
          have hne2 : ¬ kk = k0 := fun he => h he.symm
          simp [setField, lookupFields, h, hne2]
        · simp [setField, lookupFields, h, hk, ih]

theorem lookupFields_append (a b : List (String × JsVal)) (k : String) :
    lookupFields (a ++ b) k
      = match lookupFields a k with
        | some v => some v
        | none => lookupFields b k := by
  induction a with
  | nil => simp [lookupFields]
  | cons p rest ih =>
      by_cases h : p.1 = k <;>
        simp [lookupFields, h, ih]

theorem lookupFields_assignFields (fs : List (String × JsVal))
    (acc : List (String × JsVal)) (k : String) :
    lookupFields (assignFields acc fs) k
      = match lookupLast fs k with
        | some v => some v
        | none => lookupFields acc k := by
  induction fs generalizing acc with
  | nil => simp [assignFields, lookupLast, lookupFields]
  | cons p rest ih =>
      obtain ⟨k0, v0⟩ := p
      have hstep : assignFields acc ((k0, v0) :: rest)
          = assignFields (setField acc k0 v0) rest := rfl
      rw [hstep, ih]
      have hrev : lookupLast ((k0, v0) :: rest) k
          = match lookupLast rest k with
            | some v => some v
            | none => if k0 = k then some v0 else none := by
        simp only [lookupLast, List.reverse_cons, lookupFields_append]
        cases lookupFields rest.reverse k <;> simp [lookupFields]
      rw [hrev, lookupFields_setField]
      cases lookupLast rest k <;> by_cases h : k0 = k <;> simp [h]

theorem lookupFields_foldl_assign (fss : List (List (String × JsVal)))
    (acc : List (String × JsVal)) (k : String) :
    lookupFields (fss.foldl (fun a fs => assignFields a fs) acc) k
      = fss.foldl
          (fun o fs =>
            match lookupLast fs k with
            | some v => some v
            | none => o)
          (lookupFields acc k) := by
  induction fss generalizing acc with
  | nil => simp
  | cons fs rest ih =>
      simp only [List.foldl_cons]
      rw [ih, lookupFields_assignFields]

/-- C7: merging mappings overlays their fields in argument order — the
result's value at every key is the last input's value for that key
(later inputs override earlier ones), with the stored values carried
over wholesale (no recursion into them). -/
theorem merge_objects_overlay (fss : List (List (String × JsVal))) (h : fss ≠ []) :
    merge (fss.map JsVal.obj) = Except.ok (JsVal.obj (mergedFields fss)) ∧
      ∀ k, lookupFields (mergedFields fss) k = overlayLookup fss k := by
  constructor
  · obtain ⟨f0, t, rfl⟩ := List.exists_cons_of_ne_nil h
    have h1 : mergeTypeCheck "object" (JsVal.obj f0) = true := by
      simp [mergeTypeCheck, isArray, jsTypeof, isNull]
    have h2 : ∀ x ∈ t, mergeTypeCheck "object" (JsVal.obj x) = true := by
      intro x _
      simp [mergeTypeCheck, isArray, jsTypeof, isNull]
    simp [merge, isArray, jsTypeof, isNull, h1, h2, mergedFields, List.foldl_map, fieldsOf]
    exact h2
  · intro k
    have := lookupFields_foldl_assign fss [] k
    simpa [mergedFields, overlayLookup, lookupFields] using this

/-- C7 witness at the spec's example `merge({a:1,b:2}, {b:3,c:4})`. -/
theorem merge_objects_overlay_witness :
    merge [JsVal.obj [("a", JsVal.num 1), ("b", JsVal.num 2)],
        JsVal.obj [("b", JsVal.num 3), ("c", JsVal.num 4)]]
      = Except.ok (JsVal.obj
          [("a", JsVal.num 1), ("b", JsVal.num 3), ("c", JsVal.num 4)]) ∧
      lookupFields (mergedFields [[("a", JsVal.num 1), ("b", JsVal.num 2)],
          [("b", JsVal.num 3), ("c", JsVal.num 4)]]) "b"
        = overlayLookup [[("a", JsVal.num 1), ("b", JsVal.num 2)],
            [("b", JsVal.num 3), ("c", JsVal.num 4)]] "b" := by
  have h := merge_objects_overlay
    [[("a", JsVal.num 1), ("b", JsVal.num 2)],
      [("b", JsVal.num 3), ("c", JsVal.num 4)]] (by simp)
  exact ⟨h.1, h.2 "b"⟩

/-! ## Capitalize theorem -/

/-- C8: `capitalize` maps the empty string to itself, maps "omnos" to
"Omnos", and in general upper-cases exactly the first character and
keeps the rest. -/
theorem capitalize_spec :
    capitalize "" = "" ∧ capitalize "omnos" = "Omnos" ∧
      ∀ (c : Char) (rest : List Char),
        capitalize (String.mk (c :: rest)) = String.mk (c.toUpper :: rest) :=
  ⟨rfl, rfl, fun _ _ => rfl⟩

/-! ## Shuffle theorems -/

theorem get_cons_set_perm {α : Type _} :
    ∀ (t : List α) (m : Nat) (h : m < t.length) (x : α),
      List.Perm (t.get ⟨m, h⟩ :: t.set m x) (x :: t) := by
  intro t
  induction t with
  | nil =>
      intro m h x
      simp at h
  | cons a s ih =>
      intro m h x
      cases m with
      | zero => exact List.Perm.swap x a s
      | succ k =>
          have hk : k < s.length := Nat.lt_of_succ_lt_succ h
          have step1 : List.Perm (s.get ⟨k, hk⟩ :: a :: s.set k x)
              (a :: s.get ⟨k, hk⟩ :: s.set k x) := List.Perm.swap _ _ _
          have step2 : List.Perm (a :: s.get ⟨k, hk⟩ :: s.set k x)
              (a :: x :: s) := (ih k hk x).cons a
          have step3 : List.Perm (a :: x :: s) (x :: a :: s) := List.Perm.swap _ _ _
          exact (step1.trans step2).trans step3

theorem set_set_perm {α : Type _} :
    ∀ (l : List α) (i j : Nat) (hi : i < l.length) (hj : j < l.length),
      List.Perm ((l.set i (l.get ⟨j, hj⟩)).set j (l.get ⟨i, hi⟩)) l := by
  intro l
  induction l with
  | nil =>
      intro i j hi hj
      simp at hi
  | cons a t ih =>
      intro i j hi hj
      cases i with
      | zero =>
          cases j with
          | zero => exact List.Perm.refl _
          | succ m => exact get_cons_set_perm t m (Nat.lt_of_succ_lt_succ hj) a
      | succ n =>
          cases j with
          | zero => exact get_cons_set_perm t n (Nat.lt_of_succ_lt_succ hi) a
          | succ m =>
              exact (ih n m (Nat.lt_of_succ_lt_succ hi) (Nat.lt_of_succ_lt_succ hj)).cons a

theorem listSwap_perm {α : Type _} (l : List α) (i j : Nat) :
    List.Perm (listSwap l i j) l := by
  cases hx : l[i]? with
  | none =>
      have heq : listSwap l i j = l := by
        cases hy : l[j]? <;> simp [listSwap, hx, hy]
      rw [heq]
  | some x =>
      cases hy : l[j]? with
      | none =>
          have heq : listSwap l i j = l := by simp [listSwap, hx, hy]
          rw [heq]
      | some y =>
          obtain ⟨hi, hxv⟩ := List.getElem?_eq_some_iff.mp hx
          obtain ⟨hj, hyv⟩ := List.getElem?_eq_some_iff.mp hy
          have heq : listSwap l i j = (l.set i y).set j x := by
            simp [listSwap, hx, hy]
          have hx2 : l.get ⟨i, hi⟩ = x := by
            simpa [List.get_eq_getElem] using hxv
          have hy2 : l.get ⟨j, hj⟩ = y := by
            simpa [List.get_eq_getElem] using hyv
          rw [heq, ← hx2, ← hy2]
          exact set_set_perm l i j hi hj

theorem shuffleFrom_perm {α : Type _} (rand : Nat → Nat) :
    ∀ (n : Nat) (l : List α), List.Perm (shuffleFrom rand l n) l := by
  intro n
  induction n with
  | zero =>
      intro l
      exact List.Perm.refl l
  | succ k ih =>
      intro l
      exact (ih (listSwap l (Nat.succ k) (rand (Nat.succ k)))).trans
        (listSwap_perm l (Nat.succ k) (rand (Nat.succ k)))

/-- C9: for any draws of the pseudo-random source, `shuffle` returns a
permutation of its input — same multiset of elements and in particular
the same length. -/
theorem shuffle_perm {α : Type _} (rand : Nat → Nat) (array : List α) :
    List.Perm (shuffle rand array) array ∧
      (shuffle rand array).length = array.length := by
  have h := shuffleFrom_perm rand (array.length - 1) array
  exact ⟨h, h.length_eq⟩

end Omnos
